import Mathlib

/-!
Verification of `archivebox/parsers/__init__.py`: the format-detection-by-trial
dispatcher (`run_parser_functions`), its bulk entry points (`parse_links`,
`parse_links_memory`), the source-capture helper (`save_file_as_source`) and
the URL-regex self-test table.

Modelling conventions:
* A parser function (a strategy) is a pure function from the input stream
  value `σ` (the fully buffered text, together with the `root_url` keyword
  argument) to `Option (List α)`: `none` models the Python call raising an
  exception, `some links` models it returning the list `links`.
* Machine-level effects that the claims do not depend on (the `TimedProgress`
  timer, `atomic_write`, logging) are elided; fallible operations are explicit
  `Option` values.
-/

set_option linter.unusedVariables false

universe u v

/-- One registered strategy: its display name paired with its extractor. -/
abbrev ParserEntry (σ : Type u) (α : Type v) := String × (σ → Option (List α))

/-- One iteration of the `for parser_name, parser_func in PARSERS` loop body of
`run_parser_functions` (lines 105-123 of the source): a raised exception
(`none`) or an empty result (turned into `raise Exception('no links found')`,
caught by the same `except`) leaves the accumulator `(most_links,
best_parser_name)` unchanged; otherwise the parsed list replaces the current
best exactly when it is strictly longer (`len(parsed_links) >
len(most_links)`). -/
def parseStep (to_parse : σ) (acc : List α × Option String) (p : ParserEntry σ α) :
    List α × Option String :=
  match p.2 to_parse with
  | none => acc
  | some parsed_links =>
    if parsed_links.isEmpty then acc
    else if acc.1.length < parsed_links.length then (parsed_links, some p.1)
    else acc

/-- `run_parser_functions` (lines 101-125): fold the loop body over the
registry, starting from `most_links = []`, `best_parser_name = None`.  The
registry is passed as a parameter so that the theorems quantify over the
behaviour of the individual (out-of-file) parser modules. -/
def run_parser_functions (parsers : List (ParserEntry σ α)) (to_parse : σ) :
    List α × Option String :=
  parsers.foldl (parseStep to_parse) ([], none)

/-- `parse_links` (lines 85-98): run the dispatcher on the opened file's
content and post-process: `if parser is None: return [], 'Failed to parse'`.
Opening the file is elided; `source_file` is the stream value handed to the
parsers. -/
def parse_links (parsers : List (ParserEntry σ α)) (source_file : σ) :
    List α × String :=
  match run_parser_functions parsers source_file with
  | (_, none) => ([], "Failed to parse")
  | (links, some p) => (links, p)

/-- The buffer built by `file = StringIO(); file.writelines(urls)` (lines
74-75): Python's `writelines` writes each string as-is and inserts no line
separators (the newline-appending line 73 of the source is commented out). -/
def writelines (urls : List String) : String :=
  urls.foldl (fun file u => file ++ u) ""

/-- `parse_links_memory` (lines 66-82): build the in-memory buffer, run the
dispatcher on it, and post-process exactly as `parse_links` does. -/
def parse_links_memory (parsers : List (ParserEntry String α)) (urls : List String) :
    List α × String :=
  match run_parser_functions parsers (writelines urls) with
  | (_, none) => ([], "Failed to parse")
  | (links, some p) => (links, p)

/-- The buffer the spec describes for the in-memory adapter: the URLs joined
with a newline between consecutive elements. -/
def newlineJoined (urls : List String) : String :=
  String.intercalate "\n" urls

/-- Every entry of `parsers` either raised or returned zero records on
`to_parse`. -/
def FailedAll (to_parse : σ) (parsers : List (ParserEntry σ α)) : Prop :=
  ∀ p ∈ parsers, ∀ l, p.2 to_parse = some l → l = []

/-- `links`, attributed to `nm`, is the dispatch winner for `parsers` on
`to_parse`: some registered entry named `nm` produced exactly `links`
(non-empty), every earlier entry produced strictly fewer records (raising
counts as zero), and no later entry produced strictly more. -/
def WinsAt (to_parse : σ) (parsers : List (ParserEntry σ α))
    (links : List α) (nm : String) : Prop :=
  ∃ (earlier : List (ParserEntry σ α)) (f : σ → Option (List α))
    (later : List (ParserEntry σ α)), parsers = earlier ++ (nm, f) :: later ∧
    f to_parse = some links ∧ links ≠ [] ∧
    (∀ q ∈ earlier, ∀ l, q.2 to_parse = some l → l.length < links.length) ∧
    (∀ q ∈ later, ∀ l, q.2 to_parse = some l → l.length ≤ links.length)

/-- Full characterisation of a dispatcher result. -/
def Wins (to_parse : σ) (parsers : List (ParserEntry σ α)) :
    List α × Option String → Prop
  | (links, none) => links = [] ∧ FailedAll to_parse parsers
  | (links, some nm) => WinsAt to_parse parsers links nm

/-- Python's `str.startswith`, on the character lists of the two strings. -/
def startswith : List Char → List Char → Bool
  | [], _ => true
  | _ :: _, [] => false
  | a :: as, b :: bs => a == b && startswith as bs

/-- The scheme separator `"://"`. -/
def schemeSep : List Char := [':', '/', '/']

/-- Spec-side scheme extraction: the text before the first occurrence of
`"://"` in the location, or `none` when the location has no `"://"` at all. -/
def splitScheme : List Char → Option (List Char)
  | [] => none
  | c :: rest =>
    cond (startswith schemeSep (c :: rest)) (some [])
      ((splitScheme rest).map (fun q => c :: q))

/-- Line 143 of the source:
`any(path.startswith(s) for s in ('http://', 'https://', 'ftp://'))`. -/
def isRemote (path : String) : Bool :=
  startswith "http://".toList path.toList ||
  startswith "https://".toList path.toList ||
  startswith "ftp://".toList path.toList

/-- Spec-side condition: the location's scheme is one of the allow-list
`http`, `https`, `ftp`. -/
def isRemoteSpec (path : String) : Bool :=
  splitScheme path.toList == some "http".toList ||
  splitScheme path.toList == some "https".toList ||
  splitScheme path.toList == some "ftp".toList

/-- Outcome of `save_file_as_source`: a normal return carrying the returned
`source_path` and the text handed to `atomic_write`, or process termination
via `raise SystemExit(code)`. -/
inductive CaptureResult where
  | ok (source_path : String) (written_text : String)
  | fatalExit (code : Nat)
  deriving DecidableEq

/-- The fallible environment of one `save_file_as_source` call. -/
structure CaptureEnv where
  /-- Result of `download_url(path, timeout=timeout)` followed by
  `htmldecode` (both live in `archivebox.util`, outside this package):
  `none` models the pair raising any exception. -/
  download : Option String
  /-- Content produced by `open(path, 'r').read()` for a local path. -/
  localContent : String

/-- The remote branch of `save_file_as_source` (lines 144-159): on any fetch
or decode failure, print and `raise SystemExit(1)`; otherwise the decoded
text is what gets written. -/
def remoteCapture (source_path : String) (env : CaptureEnv) : CaptureResult :=
  match env.download with
  | none => .fatalExit 1
  | some raw_source_text => .ok source_path raw_source_text

/-- The local branch of `save_file_as_source` (lines 161-164): read the file
verbatim. -/
def localCapture (source_path : String) (env : CaptureEnv) : CaptureResult :=
  .ok source_path env.localContent

/-- `save_file_as_source` (lines 138-170).  `OUTPUT_DIR` and
`SOURCES_DIR_NAME` are the imported configuration globals; `fname` stands for
`filename.format(basename=basename(path), ts=ts)` (its computation uses the
out-of-package `basename` helper and the wall clock, and no claim depends on
it).  Note line 141 of the source builds `source_path` from the global
`OUTPUT_DIR`, not from the `out_dir` parameter. -/
def save_file_as_source (OUTPUT_DIR SOURCES_DIR_NAME : String) (env : CaptureEnv)
    (path : String) (fname : String) (out_dir : String) : CaptureResult :=
  let source_path := OUTPUT_DIR ++ "/" ++ SOURCES_DIR_NAME ++ "/" ++ fname
  if isRemote path then remoteCapture source_path env
  else localCapture source_path env

/-- `save_text_as_source` (lines 128-134), for contrast with
`save_file_as_source`: line 131 builds the destination from the `out_dir`
parameter (`out_dir / SOURCES_DIR_NAME / ...`). -/
def save_text_as_source (SOURCES_DIR_NAME : String) (raw_text : String)
    (fname : String) (out_dir : String) : CaptureResult :=
  let source_path := out_dir ++ "/" ++ SOURCES_DIR_NAME ++ "/" ++ fname
  .ok source_path raw_text

/-- Does the character `c` match the (lowercase or non-letter) pattern
character `p`, case-insensitively?  Uppercase letters match their lowercase
counterpart (`+ 32` in code-point). -/
def charMatchesCI (p c : Char) : Bool :=
  c.toNat == p.toNat ||
  ('A'.toNat ≤ c.toNat && c.toNat ≤ 'Z'.toNat && c.toNat + 32 == p.toNat)

/-- Strip the case-insensitive pattern from the front of the text, returning
the remainder on success. -/
def stripCI : List Char → List Char → Option (List Char)
  | [], s => some s
  | _ :: _, [] => none
  | p :: ps, c :: cs => cond (charMatchesCI p c) (stripCI ps cs) none

/-- A character the generic URL matcher accepts after the scheme: letters,
digits, and the URL punctuation range. -/
def urlChar (c : Char) : Bool :=
  ('a'.toNat ≤ c.toNat && c.toNat ≤ 'z'.toNat) ||
  ('A'.toNat ≤ c.toNat && c.toNat ≤ 'Z'.toNat) ||
  ('$'.toNat ≤ c.toNat && c.toNat ≤ '_'.toNat) ||
  c == '!' || c == '*' || c == '(' || c == ')' || c == ','

/-- Modelled from the spec: `URL_REGEX` from `archivebox.util` is imported at
line 29 of the source but its definition is not under `src/`.  Per the spec,
the generic URL matcher recognises only the `http`/`https` schemes, case
insensitively (`ftp` is excluded), and counts overlapping occurrences
separately (one URL embedded in another is counted on its own).  Modelled as:
a URL match starts at a position exactly when `http://` or `https://`
(case-insensitive) stands there followed by at least one URL character. -/
def urlStartAt (l : List Char) : Bool :=
  match stripCI "http://".toList l with
  | some (c :: _) => urlChar c
  | some [] => false
  | none =>
    match stripCI "https://".toList l with
    | some (c :: _) => urlChar c
    | _ => false

/-- Modelled from the spec: `len(re.findall(URL_REGEX, s))` for the
zero-width-lookahead `URL_REGEX` — the number of positions of `s` at which a
URL match starts. -/
def countUrls : List Char → Nat
  | [] => 0
  | c :: rest => (cond (urlStartAt (c :: rest)) 1 0) + countUrls rest

example : countUrls "https://localhost/2345".toList = 1 := by decide
example : countUrls "HTtpS://a.example.com/what/is".toList = 1 := by decide
example : countUrls "https://".toList = 0 := by decide
example : countUrls "<or>http://examplehttp://15.badc</that>".toList = 2 := by decide

/-- The abstract interfaces of the eleven parser modules imported at lines
34-44 of the source; their bodies live in the sibling modules
(`pocket_html.py`, `generic_txt.py`, ...), outside this file's scope. -/
structure ParserFuns (σ : Type u) (α : Type v) where
  parse_pocket_api_export : σ → Option (List α)
  parse_wallabag_atom_export : σ → Option (List α)
  parse_pocket_html_export : σ → Option (List α)
  parse_pinboard_rss_export : σ → Option (List α)
  parse_shaarli_rss_export : σ → Option (List α)
  parse_medium_rss_export : σ → Option (List α)
  parse_netscape_html_export : σ → Option (List α)
  parse_generic_rss_export : σ → Option (List α)
  parse_generic_json_export : σ → Option (List α)
  parse_generic_html_export : σ → Option (List α)
  parse_generic_txt_export : σ → Option (List α)

/-- The fixed registry `PARSERS` (lines 46-63), in source order. -/
def PARSERS (F : ParserFuns σ α) : List (ParserEntry σ α) :=
  [("Pocket API", F.parse_pocket_api_export),
   ("Wallabag ATOM", F.parse_wallabag_atom_export),
   ("Pocket HTML", F.parse_pocket_html_export),
   ("Pinboard RSS", F.parse_pinboard_rss_export),
   ("Shaarli RSS", F.parse_shaarli_rss_export),
   ("Medium RSS", F.parse_medium_rss_export),
   ("Netscape HTML", F.parse_netscape_html_export),
   ("Generic RSS", F.parse_generic_rss_export),
   ("Generic JSON", F.parse_generic_json_export),
   ("Generic HTML", F.parse_generic_html_export),
   ("Plain Text", F.parse_generic_txt_export)]

/-- The names of the registered strategies, in registry order. -/
def PARSER_NAMES : List String :=
  ["Pocket API", "Wallabag ATOM", "Pocket HTML", "Pinboard RSS",
   "Shaarli RSS", "Medium RSS", "Netscape HTML", "Generic RSS",
   "Generic JSON", "Generic HTML", "Plain Text"]

/-- A concrete registry whose specialised strategies all raise and whose
plain-text fallback finds one record; used to witness the registry
theorems. -/
def allFailButTxt : ParserFuns Unit Nat :=
  ⟨fun _ => none, fun _ => none, fun _ => none, fun _ => none, fun _ => none,
   fun _ => none, fun _ => none, fun _ => none, fun _ => none, fun _ => none,
   fun _ => some [0]⟩

/-- A concrete two-entry registry with a strict-majority winner; used to
witness the dispatcher theorems. -/
def twoParsers : List (ParserEntry Unit Nat) :=
  [("A", fun _ => some [1]), ("B", fun _ => some [2, 3])]

/-- A concrete registry in which every entry fails (one raises, one returns
zero records); used to witness the sentinel theorems. -/
def failParsers : List (ParserEntry Unit Nat) :=
  [("A", fun _ => none), ("B", fun _ => some [])]

/-- A concrete one-entry registry whose strategy returns the buffer it was
shown; used to observe the buffer the in-memory adapter builds. -/
def probeParsers : List (ParserEntry String String) :=
  [("Probe", fun s => some [s])]

example : run_parser_functions (PARSERS allFailButTxt) () = ([0], some "Plain Text") := rfl
example : isRemote "https://example.com" = true := rfl
example : isRemote "/path/to/http.txt" = false := rfl
example : isRemoteSpec "HTTP://x" = false := rfl
example : isRemote "HTTP://x" = false := rfl

example : run_parser_functions
    [("A", fun _ : Unit => some [1]), ("B", fun _ => some [2, 3]),
     ("C", fun _ => none), ("D", fun _ => some [4, 5])] ()
    = ([2, 3], some "B") := rfl

example : run_parser_functions ([] : List (ParserEntry Unit Nat)) () = ([], none) := rfl

example : parse_links_memory [("Probe", fun s => some [s])] ["a", "b"]
    = (["ab"], "Probe") := rfl

theorem parseStep_none (t : σ) (acc : List α × Option String) (p : ParserEntry σ α)
    (h : p.2 t = none) : parseStep t acc p = acc := by
  simp [parseStep, h]

theorem parseStep_nil (t : σ) (acc : List α × Option String) (p : ParserEntry σ α)
    (h : p.2 t = some []) : parseStep t acc p = acc := by
  simp [parseStep, h]

/-- The dispatcher's accumulator invariant: after folding the whole registry,
the result is fully characterised by `Wins`. -/
theorem wins_run (parsers : List (ParserEntry σ α)) (t : σ) :
    Wins t parsers (run_parser_functions parsers t) := by
  induction parsers using List.reverseRecOn with
  | nil =>
    exact ⟨rfl, fun p hp => absurd hp (List.not_mem_nil p)⟩
  | append_singleton ps p ih =>
    obtain ⟨nm, f⟩ := p
    have hrun : run_parser_functions (ps ++ [(nm, f)]) t
        = parseStep t (run_parser_functions ps t) (nm, f) := by
      simp [run_parser_functions, List.foldl_append]
    rcases hold : run_parser_functions ps t with ⟨links, best⟩
    rw [hrun, hold]
    rw [hold] at ih
    cases hf : f t with
    | none =>
      rw [parseStep_none t _ _ hf]
      cases best with
      | none =>
        obtain ⟨hlinks, hfail⟩ := ih
        refine ⟨hlinks, fun q hq l hl => ?_⟩
        rcases List.mem_append.mp hq with hq | hq
        · exact hfail q hq l hl
        · rw [List.mem_singleton] at hq
          subst hq
          have hl2 : f t = some l := hl
          rw [hf] at hl2
          cases hl2
      | some wnm =>
        obtain ⟨earlier, g, later, hps, hg, hne, hearlier, hlater⟩ := ih
        refine ⟨earlier, g, later ++ [(nm, f)], by rw [hps]; simp, hg, hne, hearlier,
          fun q hq l hl => ?_⟩
        rcases List.mem_append.mp hq with hq | hq
        · exact hlater q hq l hl
        · rw [List.mem_singleton] at hq
          subst hq
          have hl2 : f t = some l := hl
          rw [hf] at hl2
          cases hl2
    | some parsed =>
      cases parsed with
      | nil =>
        rw [parseStep_nil t _ _ hf]
        cases best with
        | none =>
          obtain ⟨hlinks, hfail⟩ := ih
          refine ⟨hlinks, fun q hq l hl => ?_⟩
          rcases List.mem_append.mp hq with hq | hq
          · exact hfail q hq l hl
          · rw [List.mem_singleton] at hq
            subst hq
            have hl2 : f t = some l := hl
            rw [hf] at hl2
            exact ((Option.some.injEq _ _).mp hl2).symm
        | some wnm =>
          obtain ⟨earlier, g, later, hps, hg, hne, hearlier, hlater⟩ := ih
          refine ⟨earlier, g, later ++ [(nm, f)], by rw [hps]; simp, hg, hne, hearlier,
            fun q hq l hl => ?_⟩
          rcases List.mem_append.mp hq with hq | hq
          · exact hlater q hq l hl
          · rw [List.mem_singleton] at hq
            subst hq
            have hl2 : f t = some l := hl
            rw [hf] at hl2
            have : l = [] := ((Option.some.injEq _ _).mp hl2).symm
            simp [this]
      | cons x xs =>
        have hstep : parseStep t (links, best) (nm, f)
            = if links.length < (x :: xs).length then (x :: xs, some nm)
              else (links, best) := by
          simp [parseStep, hf]
        rw [hstep]
        by_cases hlen : links.length < (x :: xs).length
        · rw [if_pos hlen]
          refine ⟨ps, f, [], by simp, hf, by simp, fun q hq l hl => ?_,
            fun q hq l hl => absurd hq (List.not_mem_nil q)⟩
          cases best with
          | none =>
            obtain ⟨hlinks, hfail⟩ := ih
            have : l = [] := hfail q hq l hl
            simp [this]
          | some wnm =>
            obtain ⟨earlier, g, later, hps, hg, hne, hearlier, hlater⟩ := ih
            rw [hps] at hq
            rcases List.mem_append.mp hq with hq | hq
            · exact Nat.lt_trans (hearlier q hq l hl) hlen
            · rcases List.mem_cons.mp hq with hq | hq
              · subst hq
                have hl2 : g t = some l := hl
                rw [hg] at hl2
                have : l = links := ((Option.some.injEq _ _).mp hl2).symm
                rw [this]
                exact hlen
              · exact Nat.lt_of_le_of_lt (hlater q hq l hl) hlen
        · rw [if_neg hlen]
          cases best with
          | none =>
            obtain ⟨hlinks, hfail⟩ := ih
            exact absurd (hlinks ▸ Nat.succ_pos xs.length) hlen
          | some wnm =>
            obtain ⟨earlier, g, later, hps, hg, hne, hearlier, hlater⟩ := ih
            refine ⟨earlier, g, later ++ [(nm, f)], by rw [hps]; simp, hg, hne, hearlier,
              fun q hq l hl => ?_⟩
            rcases List.mem_append.mp hq with hq | hq
            · exact hlater q hq l hl
            · rw [List.mem_singleton] at hq
              subst hq
              have hl2 : f t = some l := hl
              rw [hf] at hl2
              have : l = x :: xs := ((Option.some.injEq _ _).mp hl2).symm
              rw [this]
              exact Nat.le_of_not_lt hlen

theorem startswith_append (pre t : List Char) : startswith pre (pre ++ t) = true := by
  induction pre with
  | nil => rfl
  | cons a as ih => simp [startswith, ih]

theorem startswith_exists {pre s : List Char} (h : startswith pre s = true) :
    ∃ t, s = pre ++ t := by
  induction pre generalizing s with
  | nil => exact ⟨s, rfl⟩
  | cons a as ih =>
    cases s with
    | nil => simp [startswith] at h
    | cons b bs =>
      rw [startswith, Bool.and_eq_true, beq_iff_eq] at h
      obtain ⟨rfl, h2⟩ := h
      obtain ⟨t, rfl⟩ := ih h2
      exact ⟨t, rfl⟩

theorem splitScheme_eq_some {l p : List Char} (h : splitScheme l = some p) :
    ∃ t, l = p ++ (schemeSep ++ t) := by
  induction l generalizing p with
  | nil => simp [splitScheme] at h
  | cons c rest ih =>
    rw [splitScheme] at h
    cases hb : startswith schemeSep (c :: rest) with
    | true =>
      rw [hb, cond_true, Option.some.injEq] at h
      obtain ⟨t, ht⟩ := startswith_exists hb
      exact ⟨t, by rw [← h]; simpa using ht⟩
    | false =>
      rw [hb, cond_false] at h
      obtain ⟨q, hq, rfl⟩ := Option.map_eq_some'.mp h
      obtain ⟨t, rfl⟩ := ih hq
      exact ⟨t, rfl⟩

theorem splitScheme_http (t : List Char) :
    splitScheme ("http://".toList ++ t) = some "http".toList := rfl

theorem splitScheme_https (t : List Char) :
    splitScheme ("https://".toList ++ t) = some "https".toList := rfl

theorem splitScheme_ftp (t : List Char) :
    splitScheme ("ftp://".toList ++ t) = some "ftp".toList := rfl

theorem remoteCheck_eq (l : List Char) :
    (startswith "http://".toList l || startswith "https://".toList l ||
      startswith "ftp://".toList l)
    = (splitScheme l == some "http".toList || splitScheme l == some "https".toList ||
      splitScheme l == some "ftp".toList) := by
  apply Bool.eq_iff_iff.mpr
  simp only [Bool.or_eq_true, beq_iff_eq]
  constructor
  · rintro ((h | h) | h)
    · obtain ⟨t, rfl⟩ := startswith_exists h
      exact Or.inl (Or.inl (splitScheme_http t))
    · obtain ⟨t, rfl⟩ := startswith_exists h
      exact Or.inl (Or.inr (splitScheme_https t))
    · obtain ⟨t, rfl⟩ := startswith_exists h
      exact Or.inr (splitScheme_ftp t)
  · rintro ((h | h) | h)
    · obtain ⟨t, rfl⟩ := splitScheme_eq_some h
      refine Or.inl (Or.inl ?_)
      rw [← List.append_assoc]
      exact startswith_append _ _
    · obtain ⟨t, rfl⟩ := splitScheme_eq_some h
      refine Or.inl (Or.inr ?_)
      rw [← List.append_assoc]
      exact startswith_append _ _
    · obtain ⟨t, rfl⟩ := splitScheme_eq_some h
      refine Or.inr ?_
      rw [← List.append_assoc]
      exact startswith_append _ _

theorem isRemote_eq_isRemoteSpec (path : String) : isRemote path = isRemoteSpec path :=
  remoteCheck_eq path.toList

/-- C5: `save_file_as_source` takes the remote-fetch branch if and only if
the location's scheme (the text before the first `"://"`) is one of the
allow-list `http`, `https`, `ftp`; any other location is read as a local file
path. -/
theorem saveFileAsSource_remote_iff_scheme_allowlisted
    (OUTPUT_DIR SOURCES_DIR_NAME : String) (env : CaptureEnv)
    (path fname out_dir : String) :
    save_file_as_source OUTPUT_DIR SOURCES_DIR_NAME env path fname out_dir =
      if isRemoteSpec path
      then remoteCapture (OUTPUT_DIR ++ "/" ++ SOURCES_DIR_NAME ++ "/" ++ fname) env
      else localCapture (OUTPUT_DIR ++ "/" ++ SOURCES_DIR_NAME ++ "/" ++ fname) env := by
  unfold save_file_as_source
  rw [isRemote_eq_isRemoteSpec]

/-- C6: if the remote fetch (or the decode) inside `save_file_as_source`
fails for any reason, the call ends in `SystemExit(1)` — a non-zero process
exit status — not a normal return. -/
theorem saveFileAsSource_fetch_failure_fatal
    (OUTPUT_DIR SOURCES_DIR_NAME : String) (env : CaptureEnv)
    (path fname out_dir : String)
    (hremote : isRemote path = true) (hfail : env.download = none) :
    save_file_as_source OUTPUT_DIR SOURCES_DIR_NAME env path fname out_dir
      = CaptureResult.fatalExit 1 ∧ (1 : Nat) ≠ 0 := by
  refine ⟨?_, one_ne_zero⟩
  simp [save_file_as_source, remoteCapture, hremote, hfail]

theorem saveFileAsSource_fetch_failure_fatal_witness :
    isRemote "http://example.com/feed.rss" = true ∧
    (⟨none, ""⟩ : CaptureEnv).download = none ∧
    (save_file_as_source "/data" "sources" ⟨none, ""⟩ "http://example.com/feed.rss"
        "1600000000-feed.rss.txt" "/data"
      = CaptureResult.fatalExit 1 ∧ (1 : Nat) ≠ 0) :=
  ⟨rfl, rfl, saveFileAsSource_fetch_failure_fatal "/data" "sources" ⟨none, ""⟩
    "http://example.com/feed.rss" "1600000000-feed.rss.txt" "/data" rfl rfl⟩

/-- C8: contrary to the claim (and to the signature's promise, honoured by
the sibling `save_text_as_source`), `save_file_as_source` builds the
destination from the global `OUTPUT_DIR`, ignoring the caller-supplied
`out_dir`: with `OUTPUT_DIR = "/data"` and `out_dir = "/custom/dir"` the
written/returned path lies under `"/data/sources"`, and is not below
`out_dir` at all, whereas `save_text_as_source` does honour `out_dir`. -/
theorem saveFileAsSource_out_dir_ignored :
    save_file_as_source "/data" "sources" ⟨none, "raw file text"⟩ "bookmarks.html"
        "1600000000-bookmarks.html.txt" "/custom/dir"
      = CaptureResult.ok "/data/sources/1600000000-bookmarks.html.txt" "raw file text" ∧
    startswith "/custom/dir".toList
        "/data/sources/1600000000-bookmarks.html.txt".toList = false ∧
    save_text_as_source "sources" "raw file text"
        "1600000000-bookmarks.html.txt" "/custom/dir"
      = CaptureResult.ok "/custom/dir/sources/1600000000-bookmarks.html.txt" "raw file text" :=
  ⟨rfl, by decide, rfl⟩

/-- C9: the generic URL matcher behaves exactly as the literal table states:
`"https://example.com"` contains 1 URL, schemeless `"example.com"` contains
0, `"ftp://example.com"` contains 0, and the table's string embedding one
full URL as a query-string value inside another yields 2 distinct matches. -/
theorem urlRegex_literal_table :
    countUrls "https://example.com".toList = 1 ∧
    countUrls "example.com".toList = 0 ∧
    countUrls "ftp://example.com".toList = 0 ∧
    countUrls ("https://a.example.com/one.html?url=" ++
        "http://example.com/inside/of/another?=http://").toList = 2 :=
  ⟨by decide, by decide, by decide, by decide⟩

/-- C1: whenever the dispatcher names a winner, the returned record list is
that winner's own output; the winner produced strictly more records than
every registry entry before it (a raising or empty parser counting as zero),
and no later entry produced strictly more — so a later parser whose record
count merely equals the current best never displaces the earlier, more
specific entry, the comparison being the strict `>`. -/
theorem runParserFunctions_winner_strict_max
    (parsers : List (ParserEntry σ α)) (t : σ) (nm : String)
    (h : (run_parser_functions parsers t).2 = some nm) :
    WinsAt t parsers (run_parser_functions parsers t).1 nm := by
  have hw := wins_run parsers t
  rcases hold : run_parser_functions parsers t with ⟨links, best⟩
  rw [hold] at hw h
  cases best with
  | none => exact Option.noConfusion h
  | some wnm =>
    have hnm : wnm = nm := by simpa using h
    subst hnm
    exact hw

theorem runParserFunctions_winner_strict_max_witness :
    (run_parser_functions twoParsers ()).2 = some "B" ∧
    WinsAt () twoParsers (run_parser_functions twoParsers ()).1 "B" :=
  ⟨rfl, runParserFunctions_winner_strict_max twoParsers () "B" rfl⟩

/-- C2: the dispatcher is a total function of the registry's behaviour — it
returns for every input, including when individual parsers raise (`none`) or
return empty sequences, which the model makes exceptions of — and its result
satisfies the invariant: the record list is empty iff the winning strategy
name is `none`. -/
theorem runParserFunctions_total_empty_iff_none
    (parsers : List (ParserEntry σ α)) (t : σ) :
    (run_parser_functions parsers t).1 = [] ↔
      (run_parser_functions parsers t).2 = none := by
  have hw := wins_run parsers t
  rcases hold : run_parser_functions parsers t with ⟨links, best⟩
  rw [hold] at hw
  cases best with
  | none =>
    obtain ⟨h1, _⟩ := hw
    exact ⟨fun _ => rfl, fun _ => h1⟩
  | some wnm =>
    obtain ⟨e, g, l2, hps, hg, hne, _, _⟩ := hw
    exact ⟨fun hc => absurd hc hne, fun hc => Option.noConfusion hc⟩

/-- C3: a registry entry whose strategy fails on the given input has no
observable effect on the dispatch result; hence a strategy failing on every
input is equivalent, on every input, to one absent from the registry. -/
theorem runParserFunctions_failing_entry_removable
    (earlier later : List (ParserEntry σ α)) (nm : String)
    (f : σ → Option (List α)) (t : σ) (h : f t = none) :
    run_parser_functions (earlier ++ (nm, f) :: later) t
      = run_parser_functions (earlier ++ later) t := by
  unfold run_parser_functions
  rw [List.foldl_append, List.foldl_append, List.foldl_cons]
  rw [parseStep_none t (List.foldl (parseStep t) ([], none) earlier) (nm, f) h]

theorem runParserFunctions_failing_entry_removable_witness :
    ((fun _ : Unit => (none : Option (List Nat))) () = none) ∧
    run_parser_functions
        ([("A", fun _ => some [1])] ++ ("Broken", fun _ => none)
          :: [("B", fun _ => some [2, 3])]) ()
      = run_parser_functions ([("A", fun _ => some [1])] ++ [("B", fun _ => some [2, 3])]) () :=
  ⟨rfl, runParserFunctions_failing_entry_removable [("A", fun _ => some [1])]
    [("B", fun _ => some [2, 3])] "Broken" (fun _ => none) () rfl⟩

/-- Total dispatch failure: if every registered strategy raises or returns
zero records, the dispatcher returns `([], none)`. -/
theorem run_of_failedAll (parsers : List (ParserEntry σ α)) (t : σ)
    (h : FailedAll t parsers) : run_parser_functions parsers t = ([], none) := by
  have hw := wins_run parsers t
  rcases hold : run_parser_functions parsers t with ⟨links, best⟩
  rw [hold] at hw
  cases best with
  | none =>
    obtain ⟨h1, _⟩ := hw
    rw [h1]
  | some wnm =>
    obtain ⟨e, g, l2, hps, hg, hne, _, _⟩ := hw
    have hmem : (wnm, g) ∈ parsers := by
      rw [hps]
      exact List.mem_append_right _ (List.mem_cons_self _ _)
    exact absurd (h (wnm, g) hmem links hg) hne

/-- C4: the bulk entry points signal total dispatch failure with a sentinel
string, not an exception: when every strategy raises or returns zero records
they return `([], "Failed to parse")`, and when the dispatcher names a winner
they return the winning records paired with the winner's name.  Stated for
both `parse_links` and `parse_links_memory`. -/
theorem parseLinks_sentinel_or_winner
    (parsers : List (ParserEntry σ α)) (source_file : σ)
    (mparsers : List (ParserEntry String β)) (urls : List String) :
    (FailedAll source_file parsers →
      parse_links parsers source_file = ([], "Failed to parse")) ∧
    (∀ nm, (run_parser_functions parsers source_file).2 = some nm →
      parse_links parsers source_file
        = ((run_parser_functions parsers source_file).1, nm)) ∧
    (FailedAll (writelines urls) mparsers →
      parse_links_memory mparsers urls = ([], "Failed to parse")) ∧
    (∀ nm, (run_parser_functions mparsers (writelines urls)).2 = some nm →
      parse_links_memory mparsers urls
        = ((run_parser_functions mparsers (writelines urls)).1, nm)) := by
  refine ⟨?_, ?_, ?_, ?_⟩
  · intro h
    unfold parse_links
    rw [run_of_failedAll parsers source_file h]
  · intro nm h
    unfold parse_links
    rcases hold : run_parser_functions parsers source_file with ⟨links, best⟩
    rw [hold] at h
    cases best with
    | none => exact Option.noConfusion h
    | some wnm =>
      have hnm : wnm = nm := by simpa using h
      subst hnm
      rfl
  · intro h
    unfold parse_links_memory
    rw [run_of_failedAll mparsers (writelines urls) h]
  · intro nm h
    unfold parse_links_memory
    rcases hold : run_parser_functions mparsers (writelines urls) with ⟨links, best⟩
    rw [hold] at h
    cases best with
    | none => exact Option.noConfusion h
    | some wnm =>
      have hnm : wnm = nm := by simpa using h
      subst hnm
      rfl

theorem parseLinks_sentinel_or_winner_witness :
    FailedAll () failParsers ∧
    parse_links failParsers () = ([], "Failed to parse") ∧
    (run_parser_functions probeParsers (writelines ["u", "v"])).2 = some "Probe" ∧
    parse_links_memory probeParsers ["u", "v"] = (["uv"], "Probe") := by
  have hfail : FailedAll () failParsers := by
    intro p hp l hl
    rcases List.mem_cons.mp hp with hp | hp
    · subst hp
      exact Option.noConfusion hl
    · rcases List.mem_cons.mp hp with hp | hp
      · subst hp
        have hl2 : some ([] : List Nat) = some l := hl
        exact ((Option.some.injEq _ _).mp hl2).symm
      · exact absurd hp (List.not_mem_nil p)
  have h := parseLinks_sentinel_or_winner failParsers () probeParsers ["u", "v"]
  exact ⟨hfail, h.1 hfail, rfl, h.2.2.2 "Probe" rfl⟩

/-- The length of the fold underlying `writelines`. -/
theorem writelines_go_length (urls : List String) (acc : String) :
    (urls.foldl (fun file u => file ++ u) acc).length
      = acc.length + (urls.map String.length).sum := by
  induction urls generalizing acc with
  | nil => simp
  | cons u us ih =>
    rw [List.foldl_cons, ih]
    simp [String.length_append]
    omega

/-- C7 fails on the code: `StringIO.writelines` inserts no separators (the
newline-appending line is commented out in the source), so for the two-URL
list `["a", "b"]` the buffer presented to the strategies is `"ab"`, not the
newline-joined `"a" ++ "\n" ++ "b"` the claim describes — as a probe strategy
that returns its own input observes. -/
theorem parseLinksMemory_newline_claim_false :
    writelines ["a", "b"] ≠ newlineJoined ["a", "b"] ∧
    newlineJoined ["a", "b"] = "a" ++ "\n" ++ "b" ∧
    parse_links_memory [("Probe", fun s => some [s])] ["a", "b"]
      = (["ab"], "Probe") :=
  ⟨by decide, rfl, rfl⟩

/-- C7 amended: `parse_links_memory` presents the strategies with a text
buffer equal to the plain concatenation of the URL strings with no separator
inserted — it behaves exactly like `parse_links` run on that concatenation,
and the buffer's length is the sum of the URLs' lengths, leaving no room for
any separator. -/
theorem parseLinksMemory_buffer_is_concatenation
    (mparsers : List (ParserEntry String α)) (urls : List String) :
    parse_links_memory mparsers urls = parse_links mparsers (writelines urls) ∧
    (writelines urls).length = (urls.map String.length).sum := by
  refine ⟨rfl, ?_⟩
  have h := writelines_go_length urls ""
  simpa using h

/-- Any named dispatch winner is the name of a registered entry. -/
theorem winner_mem_names (parsers : List (ParserEntry σ α)) (t : σ) (nm : String)
    (h : (run_parser_functions parsers t).2 = some nm) :
    nm ∈ parsers.map Prod.fst := by
  have hw := wins_run parsers t
  rcases hold : run_parser_functions parsers t with ⟨links, best⟩
  rw [hold] at hw h
  cases best with
  | none => exact Option.noConfusion h
  | some wnm =>
    have hnm : wnm = nm := by simpa using h
    subst hnm
    obtain ⟨e, g, l2, hps, _⟩ := hw
    rw [hps]
    simp

/-- C10: a non-`none` winning strategy name returned by the dispatcher over
the fixed `PARSERS` registry is one of the eleven registered names, and
`"Plain Text"` is registered last as the terminal fallback. -/
theorem runParserFunctions_winner_in_registry
    (F : ParserFuns σ α) (t : σ) (nm : String)
    (h : (run_parser_functions (PARSERS F) t).2 = some nm) :
    nm ∈ PARSER_NAMES ∧ PARSER_NAMES.length = 11 ∧
      PARSER_NAMES.getLast? = some "Plain Text" := by
  refine ⟨?_, rfl, rfl⟩
  have hmem := winner_mem_names (PARSERS F) t nm h
  simpa [PARSERS, PARSER_NAMES] using hmem

theorem runParserFunctions_winner_in_registry_witness :
    (run_parser_functions (PARSERS allFailButTxt) ()).2 = some "Plain Text" ∧
    ("Plain Text" ∈ PARSER_NAMES ∧ PARSER_NAMES.length = 11 ∧
      PARSER_NAMES.getLast? = some "Plain Text") :=
  ⟨rfl, runParserFunctions_winner_in_registry allFailButTxt () "Plain Text" rfl⟩
